import Mathlib

/-!
Shallow embedding of the `tax-spl` off-chain cron bot
(`scripts/cron-bot/src/main.rs` and `scripts/cron-bot/src/utils.rs`).

Machine integers are modelled as `Nat`, with an explicit `% 2 ^ 64` where the
source performs an `as u64` narrowing cast.  The source reads token balances
through `ui_amount` (an `f64` equal to the raw base-unit amount divided by
`10 ^ decimals`) and casts the result `as u64`; for the value ranges exercised
here that float computation is exact, and it is modelled by exact natural floor
division.  External RPC effects (transaction submission outcomes, sampled
balances, the holder snapshot) are supplied by an explicit environment record.
-/

namespace TaxSpl

/-- Account identifiers (Solana `Pubkey`s) are opaque; modelled as `Nat`. -/
abbrev Pubkey := Nat

/-- Modulus of the `as u64` narrowing cast. -/
def U64_MOD : Nat := 2 ^ 64

/-- `get_token_account_balance(..).ui_amount.unwrap_or(0.0) as u64`
(main.rs lines 288-292, 391-395) and
`get_token_supply(..).ui_amount.unwrap_or(0.0) as u64` (line 581):
the raw base-unit amount scaled down by the mint's decimals and truncated. -/
def uiAmountTrunc (raw decimals : Nat) : Nat := raw / 10 ^ decimals

/-- The distribution-plan computation of `distribute_rewards`
(main.rs lines 604-618).  Input is the `get_program_accounts` snapshot as
`(owner, raw amount)` pairs, in iteration order.  For each account with a
positive balance the code computes
`(balance as u128 * total_rewards as u128 / total_supply as u128) as u64`
and pushes `(owner, reward)` when `reward > 0`.  When `total_supply = 0`
that `u128` division panics in Rust; the panic is modelled by `none`. -/
def computeDistribution (accounts : List (Pubkey × Nat))
    (totalRewards totalSupply : Nat) : Option (List (Pubkey × Nat)) :=
  match accounts with
  | [] => some []
  | (owner, balance) :: rest =>
    if 0 < balance then
      if totalSupply = 0 then none
      else
        match computeDistribution rest totalRewards totalSupply with
        | none => none
        | some tail =>
          some (if 0 < balance * totalRewards / totalSupply % U64_MOD then
                  (owner, balance * totalRewards / totalSupply % U64_MOD) :: tail
                else tail)
    else computeDistribution rest totalRewards totalSupply

/-- Sum of the reward amounts of a distribution plan. -/
def sumRewards (plan : List (Pubkey × Nat)) : Nat := (plan.map Prod.snd).sum

/-- Sum of the raw balances of a holder snapshot. -/
def sumBalances (accounts : List (Pubkey × Nat)) : Nat :=
  (accounts.map Prod.snd).sum

/-- Constant-product estimate of `fetch_raydium_quote` (main.rs lines 141-142):
`(in_amount as u128 * reserve_out as u128 / (reserve_in as u128 + in_amount as u128)) as u64`. -/
def constantProductOut (amountIn reserveIn reserveOut : Nat) : Nat :=
  amountIn * reserveOut / (reserveIn + amountIn) % U64_MOD

/-- `(x as f64 * (1.0 - 0.25)) as u64` (main.rs lines 145 and 369) with the
configured `slippage = 0.25`: multiply by three quarters and truncate.
`1.0 - 0.25` is exactly `0.75` in `f64`, and for the magnitudes exercised here
the product and truncation coincide with `3 * x / 4` over `Nat`. -/
def applySlippage25 (x : Nat) : Nat := x * 3 / 4

/-- `fetch_raydium_quote` (main.rs lines 95-148) after pool lookup and reserve
reads: the constant-product estimate with the slippage tolerance applied. -/
def fetchRaydiumQuote (amountIn reserveIn reserveOut : Nat) : Nat :=
  applySlippage25 (constantProductOut amountIn reserveIn reserveOut)

/-- `amount_out_minimum` (main.rs line 369): the slippage tolerance applied to
the already slippage-adjusted quote returned by `fetch_raydium_quote`. -/
def amountOutMinimum (quotedAmountOut : Nat) : Nat := applySlippage25 quotedAmountOut

/-- Chain-visible instruction submissions of one cycle of the bot.
`harvestCall` records the holder accounts carried by the harvest instruction
(the source builds `tax_token::accounts::Harvest` from the mint and the token
program only, so the bot always submits an empty holder-account list). -/
inductive Action
  | harvestCall (holderAccounts : List Pubkey)
  | withdrawCall
  | swapCall (amountIn amountOutMin : Nat)
  | transferCall (owner : Pubkey) (reward : Nat)
deriving DecidableEq, Repr

/-- Errors that `process_job` can return (as `Err(..)` values). -/
inductive CycleError
  | harvestFailed
  | withdrawFailed
  | noPoolFound
  | metadataFailed
  | swapRejected
  | transferFailed (taskIndex : Nat)
deriving DecidableEq, Repr

/-- How one invocation of the cycle body ends.  `panicked` models a Rust
panic (such as integer division by zero), which unwinds past `process_job`
instead of being returned as an `Err` value. -/
inductive CycleOutcome
  | ok
  | err (e : CycleError)
  | panicked
deriving DecidableEq, Repr

/-- External state and RPC outcomes consumed by one cycle.
`adminBalancePreRaw` is the admin token balance as it stood before the cycle
began; the source never reads it, it is recorded here only so that statements
about balance deltas can be expressed.  `adminBalanceRaw` is the raw balance
returned by the single `get_token_account_balance(&admin_ata)` sample taken
after the withdraw call (main.rs line 288), and `rewardBalanceRaw` the raw
balance of `output_ata` sampled after the swap (line 391). -/
structure Env where
  decimals : Nat
  rewardDecimals : Nat
  adminBalancePreRaw : Nat
  adminBalanceRaw : Nat
  harvestOk : Bool
  withdrawOk : Bool
  poolFound : Bool
  metadataOk : Bool
  reserveIn : Nat
  reserveOut : Nat
  swapOk : Bool
  rewardBalanceRaw : Nat
  supplyRaw : Nat
  holders : List (Pubkey × Nat)
  transferOk : Nat → Bool

/-- `harvested_amount` (main.rs lines 288-292): the truncated ui amount of the
single post-withdraw admin-balance sample. -/
def harvestedAmount (env : Env) : Nat :=
  uiAmountTrunc env.adminBalanceRaw env.decimals

/-- `reward_balance` (main.rs lines 391-395): the truncated ui amount of the
post-swap output-account sample. -/
def rewardBalance (env : Env) : Nat :=
  uiAmountTrunc env.rewardBalanceRaw env.rewardDecimals

/-- `total_supply` (main.rs lines 580-581): the truncated ui amount of the tax
mint's supply. -/
def totalSupplyUi (env : Env) : Nat :=
  uiAmountTrunc env.supplyRaw env.decimals

/-- The result of every spawned transfer task, in plan order: `join_all`
(main.rs line 706) produces one result per spawned task. -/
def taskResults (env : Env) (plan : List (Pubkey × Nat)) :
    List (Except CycleError Unit) :=
  (List.range plan.length).map fun i =>
    if env.transferOk i then .ok () else .error (.transferFailed i)

/-- `for result in results { result??; }` (main.rs lines 707-709), applied to
the fully collected result list: return the first failure, `ok` if none. -/
def propagateResults : List (Except CycleError Unit) → Except CycleError Unit
  | [] => .ok ()
  | .ok _ :: rest => propagateResults rest
  | .error e :: _ => .error e

/-- The transfer instructions dispatched for a distribution plan
(main.rs lines 639-703, one spawned transfer per plan entry). -/
def distributeActions (plan : List (Pubkey × Nat)) : List Action :=
  plan.map fun pr => Action.transferCall pr.1 pr.2

/-- One invocation of the cycle body `process_job` (main.rs lines 239-411),
returning the trace of submitted instructions and the outcome:
harvest, withdraw, sample the admin balance, short-circuit on zero,
pool lookup, metadata fetch, quote, swap, sample the reward balance,
then `distribute_rewards`.  Associated-token-account creation and the
read-only RPC lookups are not chain-mutating claim subjects and carry no
trace entries of their own. -/
def processJob (env : Env) : List Action × CycleOutcome :=
  if !env.harvestOk then ([Action.harvestCall []], .err .harvestFailed)
  else if !env.withdrawOk then
    ([Action.harvestCall [], Action.withdrawCall], .err .withdrawFailed)
  else if harvestedAmount env = 0 then
    ([Action.harvestCall [], Action.withdrawCall], .ok)
  else if !env.poolFound then
    ([Action.harvestCall [], Action.withdrawCall], .err .noPoolFound)
  else if !env.metadataOk then
    ([Action.harvestCall [], Action.withdrawCall], .err .metadataFailed)
  else
    let amountIn := harvestedAmount env
    let minOut :=
      amountOutMinimum (fetchRaydiumQuote amountIn env.reserveIn env.reserveOut)
    let tr2 := [Action.harvestCall [], Action.withdrawCall,
                Action.swapCall amountIn minOut]
    if !env.swapOk then (tr2, .err .swapRejected)
    else
      match computeDistribution env.holders (rewardBalance env) (totalSupplyUi env) with
      | none => (tr2, .panicked)
      | some plan =>
        match propagateResults (taskResults env plan) with
        | .ok _ => (tr2 ++ distributeActions plan, .ok)
        | .error e => (tr2 ++ distributeActions plan, .err e)

/-- One log line of the controller loop; both arms of the `match` in `main`
print the current `chrono::Utc::now()` timestamp. -/
structure LogLine where
  time : Nat
  failed : Bool
deriving DecidableEq, Repr

/-- The controller's treatment of one cycle outcome (main.rs lines 194-207):
`Ok` and `Err` are both matched, logged with a timestamp, and the loop
continues (`true`).  A Rust panic is not a `Result` value: it unwinds past the
`match`, nothing is logged by it, and the process terminates (`false`). -/
def controllerStep (time : Nat) (r : CycleOutcome) : Option LogLine × Bool :=
  match r with
  | .ok => (some ⟨time, false⟩, true)
  | .err _ => (some ⟨time, true⟩, true)
  | .panicked => (none, false)

/-- The harvest invocations of a trace, each recorded as the holder-account
list it carried. -/
def harvestCalls (trace : List Action) : List (List Pubkey) :=
  trace.filterMap fun a =>
    match a with
    | .harvestCall l => some l
    | _ => none

/-- Whether an action is a swap instruction submission. -/
def Action.isSwap : Action → Bool
  | .swapCall _ _ => true
  | _ => false

/-- Whether an action is a distribution transfer submission. -/
def Action.isTransfer : Action → Bool
  | .transferCall _ _ => true
  | _ => false

/-- One entry of the indexer's `token_accounts` response (utils.rs lines 78-83). -/
structure TokenAccountEntry where
  address : String
  owner : String
  amount : Nat
deriving DecidableEq, Repr

/-- The pagination loop of `get_token_accounts` (utils.rs lines 134-198), with
explicit fuel.  `pages p` is the indexer's `token_accounts` list for page `p`.
The loop accumulates the returned accounts, breaks as soon as a page returns
fewer than `limit` results, and otherwise advances to page `p + 1`; the source
inserts into a `HashMap` keyed by account address, modelled here by plain
accumulation.  A `some (acc, last)` result means the loop terminated with
`last` the page at which it broke; `none` means the fuel ran out first. -/
def getTokenAccountsLoop (pages : Nat → List TokenAccountEntry) (limit : Nat) :
    Nat → Nat → Option (List TokenAccountEntry × Nat)
  | 0, _ => none
  | fuel + 1, p =>
    if (pages p).length < limit then some (pages p, p)
    else
      match getTokenAccountsLoop pages limit fuel (p + 1) with
      | none => none
      | some (rest, last) => some (pages p ++ rest, last)

/-! ## Theorems -/

/-- Helper for C1: when the snapshot's balances sum to at most `S`, the plan
exists (no division by zero) and its reward sum is bounded by
`sumBalances * R / S`. -/
theorem sumRewards_le_scaled (R S : Nat) (hS : 0 < S) (hR : R < U64_MOD) :
    ∀ accounts : List (Pubkey × Nat), sumBalances accounts ≤ S →
      ∃ plan, computeDistribution accounts R S = some plan ∧
        sumRewards plan ≤ sumBalances accounts * R / S := by
  intro accounts
  induction accounts with
  | nil =>
    intro _
    exact ⟨[], rfl, by simp [sumRewards, sumBalances]⟩
  | cons hd tl ih =>
    intro hsum
    obtain ⟨owner, balance⟩ := hd
    have hcons : sumBalances ((owner, balance) :: tl) = balance + sumBalances tl := by
      simp [sumBalances]
    have hsum' : sumBalances tl ≤ S := by omega
    obtain ⟨tail, htail, hle⟩ := ih hsum'
    by_cases hb : 0 < balance
    · have hSne : S ≠ 0 := Nat.pos_iff_ne_zero.mp hS
      have hbS : balance ≤ S := by omega
      have hrew_le : balance * R / S ≤ R := by
        calc balance * R / S ≤ S * R / S :=
              Nat.div_le_div_right (Nat.mul_le_mul_right R hbS)
          _ = R := Nat.mul_div_cancel_left R hS
      have hmod : balance * R / S % U64_MOD = balance * R / S :=
        Nat.mod_eq_of_lt (lt_of_le_of_lt hrew_le hR)
      have hsplit : balance * R / S + sumBalances tl * R / S ≤
          sumBalances ((owner, balance) :: tl) * R / S := by
        rw [hcons, Nat.add_mul]
        exact Nat.add_div_le_add_div (balance * R) (sumBalances tl * R) S
      have htl_le : sumBalances tl * R / S ≤ sumBalances tl * R / S := le_refl _
      refine ⟨if 0 < balance * R / S % U64_MOD then
          (owner, balance * R / S % U64_MOD) :: tail else tail, ?_, ?_⟩
      · show computeDistribution ((owner, balance) :: tl) R S = _
        rw [computeDistribution, if_pos hb, if_neg hSne, htail]
      · rw [hmod]
        by_cases hpos : 0 < balance * R / S
        · rw [if_pos hpos]
          have : sumRewards ((owner, balance * R / S) :: tail) =
              balance * R / S + sumRewards tail := by simp [sumRewards]
          rw [this]
          calc balance * R / S + sumRewards tail
              ≤ balance * R / S + sumBalances tl * R / S := by omega
            _ ≤ sumBalances ((owner, balance) :: tl) * R / S := hsplit
        · rw [if_neg hpos]
          calc sumRewards tail ≤ sumBalances tl * R / S := hle
            _ ≤ balance * R / S + sumBalances tl * R / S := Nat.le_add_left _ _
            _ ≤ sumBalances ((owner, balance) :: tl) * R / S := hsplit
    · refine ⟨tail, ?_, ?_⟩
      · show computeDistribution ((owner, balance) :: tl) R S = _
        rw [computeDistribution, if_neg hb, htail]
      · calc sumRewards tail ≤ sumBalances tl * R / S := hle
          _ ≤ sumBalances ((owner, balance) :: tl) * R / S := by
              apply Nat.div_le_div_right
              apply Nat.mul_le_mul_right
              omega

/-- C1 counterexample: a snapshot whose single balance (3) exceeds the positive
total supply (2) with total rewards 10 yields the plan `[(0, 15)]`, whose sum
15 exceeds the total rewards — integer floor truncation alone does not
guarantee the bound. -/
theorem C1_sum_exceeds_rewards_cx :
    computeDistribution [(0, 3)] 10 2 = some [(0, 15)] ∧
      ¬ sumRewards [(0, 15)] ≤ 10 := by decide

/-- C1 amended: for every holder-balance snapshot whose balances sum to at
most the positive total supply, and total rewards fitting in a `u64`, the plan
computed by `distribute_rewards` exists and its reward sum never exceeds the
total rewards. -/
theorem C1_sum_le_rewards (accounts : List (Pubkey × Nat)) (R S : Nat)
    (hS : 0 < S) (hR : R < U64_MOD) (hsum : sumBalances accounts ≤ S) :
    ∃ plan, computeDistribution accounts R S = some plan ∧ sumRewards plan ≤ R := by
  obtain ⟨plan, hplan, hle⟩ := sumRewards_le_scaled R S hS hR accounts hsum
  refine ⟨plan, hplan, le_trans hle ?_⟩
  calc sumBalances accounts * R / S ≤ S * R / S :=
        Nat.div_le_div_right (Nat.mul_le_mul_right R hsum)
    _ = R := Nat.mul_div_cancel_left R hS

/-- C1 witness: the spec's own scenario — supply 1000, rewards 100, balances
500/300/200 — has a plan whose sum is bounded by 100. -/
theorem C1_sum_le_rewards_w :
    ∃ plan, computeDistribution [(1, 500), (2, 300), (3, 200)] 100 1000 = some plan ∧
      sumRewards plan ≤ 100 :=
  C1_sum_le_rewards [(1, 500), (2, 300), (3, 200)] 100 1000 (by decide) (by decide)
    (by decide)

/-- Environment exhibiting a nonzero pre-cycle admin balance: 5 whole tokens
already sat in the admin account before the cycle, and 7 sit there after the
withdraw (so the cycle actually collected 2). -/
def envC2 : Env where
  decimals := 9
  rewardDecimals := 9
  adminBalancePreRaw := 5000000000
  adminBalanceRaw := 7000000000
  harvestOk := true
  withdrawOk := true
  poolFound := true
  metadataOk := true
  reserveIn := 0
  reserveOut := 0
  swapOk := true
  rewardBalanceRaw := 0
  supplyRaw := 0
  holders := []
  transferOk := fun _ => true

/-- C2 counterexample: with 5 whole tokens already in the admin account before
the cycle and 7 after the withdraw, the code reports `harvested_amount = 7`
(the single absolute post-withdraw sample), while the claimed delta of the two
samples is 2. -/
theorem C2_harvested_delta_cx :
    harvestedAmount envC2 = 7 ∧
      uiAmountTrunc envC2.adminBalanceRaw envC2.decimals -
        uiAmountTrunc envC2.adminBalancePreRaw envC2.decimals = 2 ∧
      (7 : Nat) ≠ 2 := by decide

/-- C2 amended: `harvested_amount` is the single absolute post-withdraw
admin-balance sample — no pre-cycle sample is taken and no subtraction is
performed — and it is also the amount fed to the swap instruction; the
reported amount coincides with the claimed two-sample delta only when the
pre-cycle admin balance truncates to zero. -/
theorem C2_harvested_absolute (env : Env) :
    harvestedAmount env = uiAmountTrunc env.adminBalanceRaw env.decimals ∧
      (∀ a b, Action.swapCall a b ∈ (processJob env).1 →
        a = uiAmountTrunc env.adminBalanceRaw env.decimals) ∧
      (uiAmountTrunc env.adminBalancePreRaw env.decimals = 0 →
        harvestedAmount env =
          uiAmountTrunc env.adminBalanceRaw env.decimals -
            uiAmountTrunc env.adminBalancePreRaw env.decimals) := by
  refine ⟨rfl, ?_, ?_⟩
  · intro a b hmem
    unfold processJob at hmem
    cases hH : env.harvestOk <;> rw [hH] at hmem
    · simp at hmem
    cases hW : env.withdrawOk <;> rw [hW] at hmem
    · simp at hmem
    by_cases h0 : harvestedAmount env = 0
    · simp [h0] at hmem
    cases hP : env.poolFound <;> rw [hP] at hmem
    · simp [h0] at hmem
    cases hM : env.metadataOk <;> rw [hM] at hmem
    · simp [h0] at hmem
    cases hS : env.swapOk <;> rw [hS] at hmem
    · simp [h0] at hmem
      exact hmem.1
    · simp only [Bool.not_true, if_neg h0, Bool.false_eq_true, if_false] at hmem
      cases hcd :
          computeDistribution env.holders (rewardBalance env) (totalSupplyUi env) <;>
        rw [hcd] at hmem <;> dsimp only at hmem
      · simp at hmem
        exact hmem.1
      · rename_i plan
        cases hpr : propagateResults (taskResults env plan) <;> rw [hpr] at hmem <;>
          dsimp only at hmem <;>
          · simp [distributeActions] at hmem
            exact hmem.1
  · intro hpre
    simp [hpre, harvestedAmount]

/-- Environment for the C2 witness: nothing was in the admin account before
the cycle, and 3 whole tokens are there after the withdraw. -/
def envC2w : Env where
  decimals := 9
  rewardDecimals := 9
  adminBalancePreRaw := 0
  adminBalanceRaw := 3000000000
  harvestOk := true
  withdrawOk := true
  poolFound := true
  metadataOk := true
  reserveIn := 0
  reserveOut := 0
  swapOk := true
  rewardBalanceRaw := 0
  supplyRaw := 0
  holders := []
  transferOk := fun _ => true

/-- C2 witness: at `envC2w` the pre-cycle balance truncates to zero, so the
absolute sample coincides with the delta. -/
theorem C2_harvested_absolute_w :
    harvestedAmount envC2w =
      uiAmountTrunc envC2w.adminBalanceRaw envC2w.decimals -
        uiAmountTrunc envC2w.adminBalancePreRaw envC2w.decimals :=
  (C2_harvested_absolute envC2w).2.2 (by decide)

/-- Helper: a distribution dispatch contributes no harvest invocations. -/
theorem harvestCalls_distributeActions (plan : List (Pubkey × Nat)) :
    harvestCalls (distributeActions plan) = [] := by
  rw [harvestCalls, distributeActions, List.filterMap_map]
  exact List.filterMap_eq_nil_iff.mpr fun a _ => rfl

/-- Helper: `harvestCalls` distributes over trace concatenation. -/
theorem harvestCalls_append (tr1 tr2 : List Action) :
    harvestCalls (tr1 ++ tr2) = harvestCalls tr1 ++ harvestCalls tr2 := by
  simp [harvestCalls]

/-- Environment with 21 holder accounts and nothing harvested. -/
def envC3 : Env where
  decimals := 9
  rewardDecimals := 9
  adminBalancePreRaw := 0
  adminBalanceRaw := 0
  harvestOk := true
  withdrawOk := true
  poolFound := true
  metadataOk := true
  reserveIn := 0
  reserveOut := 0
  swapOk := true
  rewardBalanceRaw := 0
  supplyRaw := 21000000000
  holders := (List.range 21).map fun i => (i, 1000000000)
  transferOk := fun _ => true

/-- C3 counterexample: with `M = 21` holder accounts and batch size `N = 20`
the claim predicts `ceil(21/20) = 2` harvest invocations partitioning the
holder list, but the cycle submits exactly one harvest invocation, and it
carries no holder accounts at all. -/
theorem C3_harvest_batches_cx :
    harvestCalls (processJob envC3).1 = [[]] ∧
      (21 + 20 - 1) / 20 = 2 ∧
      (harvestCalls (processJob envC3).1).length ≠ 2 := by decide

/-- C3 amended: in every cycle the bot submits exactly one harvest invocation,
built from the mint and token-program accounts only — it carries no
holder-account list, independent of the number of holders and of any batch
size. -/
theorem C3_harvest_single_call (env : Env) :
    harvestCalls (processJob env).1 = [[]] := by
  unfold processJob
  cases hH : env.harvestOk
  · rfl
  cases hW : env.withdrawOk
  · rfl
  by_cases h0 : harvestedAmount env = 0
  · simp [h0]
    rfl
  cases hP : env.poolFound
  · simp [h0]
    rfl
  cases hM : env.metadataOk
  · simp [h0]
    rfl
  cases hS : env.swapOk
  · simp [h0]
    rfl
  simp only [Bool.not_true, if_neg h0, Bool.false_eq_true, if_false]
  cases hcd : computeDistribution env.holders (rewardBalance env) (totalSupplyUi env)
  · rfl
  · rename_i plan
    dsimp only
    cases hpr : propagateResults (taskResults env plan) <;> dsimp only <;>
      · rw [harvestCalls_append, harvestCalls_distributeActions]
        rfl

/-- C4: every error returned by the cycle body is matched by the controller,
logged with its timestamp as a failure, and the loop proceeds to the next
interval; in particular a swap-step rejection surfaces as a returned error and
is handled that way — no returned per-cycle error stops the loop. -/
theorem C4_controller_catches_errors (t : Nat) (e : CycleError) (env : Env)
    (hH : env.harvestOk = true) (hW : env.withdrawOk = true)
    (h0 : harvestedAmount env ≠ 0) (hP : env.poolFound = true)
    (hM : env.metadataOk = true) (hS : env.swapOk = false) :
    controllerStep t (.err e) = (some ⟨t, true⟩, true) ∧
      (processJob env).2 = .err .swapRejected ∧
      controllerStep t (processJob env).2 = (some ⟨t, true⟩, true) := by
  have hjob : (processJob env).2 = .err .swapRejected := by
    unfold processJob
    rw [hH, hW, hP, hM, hS]
    simp [h0]
  exact ⟨rfl, hjob, by rw [hjob]; rfl⟩

/-- Environment for the C4 witness: one whole token harvested, pool and
metadata available, swap rejected. -/
def envC4 : Env where
  decimals := 9
  rewardDecimals := 9
  adminBalancePreRaw := 0
  adminBalanceRaw := 1000000000
  harvestOk := true
  withdrawOk := true
  poolFound := true
  metadataOk := true
  reserveIn := 1000
  reserveOut := 1000
  swapOk := false
  rewardBalanceRaw := 0
  supplyRaw := 1000000000
  holders := []
  transferOk := fun _ => true

/-- C4 witness: at time 5 a swap rejection in `envC4` is logged as a failed
cycle and the loop continues. -/
theorem C4_controller_catches_errors_w :
    controllerStep 5 (.err .harvestFailed) = (some ⟨5, true⟩, true) ∧
      (processJob envC4).2 = .err .swapRejected ∧
      controllerStep 5 (processJob envC4).2 = (some ⟨5, true⟩, true) :=
  C4_controller_catches_errors 5 .harvestFailed envC4 rfl rfl (by decide) rfl rfl rfl

/-- Helper for the zero-harvest short circuit (main.rs lines 294-297): when
the sampled amount is zero the cycle ends right after harvest and withdraw. -/
theorem processJob_zero_harvest (env : Env) (hH : env.harvestOk = true)
    (hW : env.withdrawOk = true) (h0 : harvestedAmount env = 0) :
    processJob env = ([Action.harvestCall [], Action.withdrawCall], .ok) := by
  unfold processJob
  rw [hH, hW]
  simp [h0]

/-- C5: in a cycle where the sampled harvested amount is zero, the cycle body
returns successfully and its trace contains no swap submission and no
distribution transfer submission. -/
theorem C5_zero_harvest_short_circuit (env : Env)
    (hH : env.harvestOk = true) (hW : env.withdrawOk = true)
    (h0 : harvestedAmount env = 0) :
    (processJob env).2 = .ok ∧
      ∀ a ∈ (processJob env).1, a.isSwap = false ∧ a.isTransfer = false := by
  rw [processJob_zero_harvest env hH hW h0]
  exact ⟨rfl, by decide⟩

/-- Environment for the C5 witness: harvest and withdraw succeed but the admin
account remains empty. -/
def envC5 : Env where
  decimals := 9
  rewardDecimals := 9
  adminBalancePreRaw := 0
  adminBalanceRaw := 0
  harvestOk := true
  withdrawOk := true
  poolFound := true
  metadataOk := true
  reserveIn := 1000
  reserveOut := 1000
  swapOk := true
  rewardBalanceRaw := 0
  supplyRaw := 1000000000
  holders := [(7, 1000000000)]
  transferOk := fun _ => true

/-- C5 witness: with nothing harvested in `envC5` the cycle is a successful
no-op with neither swap nor transfer submissions. -/
theorem C5_zero_harvest_short_circuit_w :
    (processJob envC5).2 = .ok ∧
      ∀ a ∈ (processJob envC5).1, a.isSwap = false ∧ a.isTransfer = false :=
  C5_zero_harvest_short_circuit envC5 rfl rfl (by decide)

/-- Environment in which 1000 whole tokens are harvested against vault
reserves of 1000 and 1000. -/
def envC6 : Env where
  decimals := 9
  rewardDecimals := 9
  adminBalancePreRaw := 0
  adminBalanceRaw := 1000000000000
  harvestOk := true
  withdrawOk := true
  poolFound := true
  metadataOk := true
  reserveIn := 1000
  reserveOut := 1000
  swapOk := false
  rewardBalanceRaw := 0
  supplyRaw := 0
  holders := []
  transferOk := fun _ => true

/-- C6 counterexample: with `amount_in = 1000` and reserves 1000/1000 the
constant-product estimate is 500; applying the 25% tolerance exactly once
gives a floor of 375, but the swap submitted by the cycle carries
`amount_out_minimum = 281` — the tolerance was applied a second time on top
of the already-adjusted quote. -/
theorem C6_min_out_cx :
    (processJob envC6).1 =
      [Action.harvestCall [], Action.withdrawCall, Action.swapCall 1000 281] ∧
      applySlippage25 (constantProductOut 1000 1000 1000) = 375 ∧
      (281 : Nat) ≠ 375 := by decide

/-- C6 amended: the minimum-acceptable-out submitted with the swap is the
constant-product estimate with the 25% slippage tolerance applied twice —
once inside `fetch_raydium_quote` and once more when `amount_out_minimum` is
derived from the quote. -/
theorem C6_min_out_double_slippage (env : Env)
    (hH : env.harvestOk = true) (hW : env.withdrawOk = true)
    (h0 : harvestedAmount env ≠ 0) (hP : env.poolFound = true)
    (hM : env.metadataOk = true) (hS : env.swapOk = false) :
    (processJob env).1 =
      [Action.harvestCall [], Action.withdrawCall,
        Action.swapCall (harvestedAmount env)
          (applySlippage25 (applySlippage25
            (constantProductOut (harvestedAmount env) env.reserveIn env.reserveOut)))] := by
  unfold processJob
  rw [hH, hW, hP, hM, hS]
  simp [h0, amountOutMinimum, fetchRaydiumQuote]

/-- C6 witness: in `envC6` the submitted floor is the doubly adjusted
estimate, 281 rather than the singly adjusted 375. -/
theorem C6_min_out_double_slippage_w :
    (processJob envC6).1 =
      [Action.harvestCall [], Action.withdrawCall,
        Action.swapCall (harvestedAmount envC6)
          (applySlippage25 (applySlippage25
            (constantProductOut (harvestedAmount envC6) envC6.reserveIn envC6.reserveOut)))] :=
  C6_min_out_double_slippage envC6 rfl rfl (by decide) rfl rfl rfl

/-- Environment whose tax mint has a raw supply of half a token (truncated ui
supply 0) while one holder still has a positive raw balance and one whole
token was harvested and swapped into three whole reward tokens. -/
def envC7 : Env where
  decimals := 9
  rewardDecimals := 9
  adminBalancePreRaw := 0
  adminBalanceRaw := 1000000000
  harvestOk := true
  withdrawOk := true
  poolFound := true
  metadataOk := true
  reserveIn := 1000
  reserveOut := 1000
  swapOk := true
  rewardBalanceRaw := 3000000000
  supplyRaw := 500000000
  holders := [(42, 500000000)]
  transferOk := fun _ => true

/-- C7: when the tax token's total supply reads as zero while a holder has a
positive balance, the per-holder division panics instead of returning a
recoverable error: the cycle body's outcome is a panic, which the
controller's match does not log and which terminates the process — contrary
to the claim that it is surfaced as an ordinary recoverable cycle failure. -/
theorem C7_div_by_zero_is_panic :
    totalSupplyUi envC7 = 0 ∧
      computeDistribution envC7.holders (rewardBalance envC7) (totalSupplyUi envC7) =
        none ∧
      (processJob envC7).2 = .panicked ∧
      controllerStep 0 (processJob envC7).2 = (none, false) := by decide

/-- Helper for C8: the collected results propagate as success exactly when
every task result is a success. -/
theorem propagateResults_ok_iff (results : List (Except CycleError Unit)) :
    propagateResults results = .ok () ↔ ∀ r ∈ results, r = .ok () := by
  induction results with
  | nil => simp [propagateResults]
  | cons r rest ih =>
    cases r with
    | ok u =>
      cases u
      simpa [propagateResults] using ih
    | error e => simp [propagateResults]

/-- Helper for C8: the collected results propagate the error `e` exactly when
`e` is the first failure in task order. -/
theorem propagateResults_error_iff (results : List (Except CycleError Unit))
    (e : CycleError) :
    propagateResults results = .error e ↔
      ∃ pre post, results = pre ++ .error e :: post ∧ ∀ r ∈ pre, r = .ok () := by
  induction results with
  | nil =>
    constructor
    · intro h
      cases h
    · rintro ⟨pre, post, heq, -⟩
      exact absurd heq.symm (List.append_ne_nil_of_right_ne_nil pre (by simp))
  | cons r rest ih =>
    cases r with
    | ok u =>
      cases u
      rw [show propagateResults (Except.ok () :: rest) = propagateResults rest from rfl,
        ih]
      constructor
      · rintro ⟨pre, post, heq, hpre⟩
        refine ⟨.ok () :: pre, post, by rw [heq]; rfl, ?_⟩
        intro x hx
        rcases List.mem_cons.mp hx with h | h
        · rw [h]
        · exact hpre x h
      · rintro ⟨pre, post, heq, hpre⟩
        cases pre with
        | nil =>
          exact absurd (List.cons_eq_cons.mp heq).1 (by simp)
        | cons p pre2 =>
          obtain ⟨hp, hrest⟩ := List.cons_eq_cons.mp heq
          refine ⟨pre2, post, hrest, ?_⟩
          intro x hx
          exact hpre x (List.mem_cons_of_mem p hx)
    | error e2 =>
      rw [show propagateResults (Except.error e2 :: rest) = .error e2 from rfl]
      constructor
      · intro h
        injection h with h
        subst h
        exact ⟨[], rest, rfl, by simp⟩
      · rintro ⟨pre, post, heq, hpre⟩
        cases pre with
        | nil =>
          simp only [List.nil_append, List.cons_eq_cons] at heq
          rw [heq.1]
        | cons p pre2 =>
          have hp : p = .ok () := hpre p (List.mem_cons_self p pre2)
          have hh := (List.cons_eq_cons.mp heq).1
          rw [hp] at hh
          cases hh

/-- C8: `join_all` yields one result per spawned transfer task (none is
discarded), and only after the full result list is collected does the loop
propagate a failure — success exactly when all tasks succeeded, and the error
propagated is precisely the first failure in task order. -/
theorem C8_join_all_then_first_failure (env : Env) (plan : List (Pubkey × Nat))
    (results : List (Except CycleError Unit)) (e : CycleError) :
    (taskResults env plan).length = plan.length ∧
      (propagateResults results = .ok () ↔ ∀ r ∈ results, r = .ok ()) ∧
      (propagateResults results = .error e ↔
        ∃ pre post, results = pre ++ .error e :: post ∧ ∀ r ∈ pre, r = .ok ()) :=
  ⟨by simp [taskResults], propagateResults_ok_iff results,
    propagateResults_error_iff results e⟩

/-- C9: the pagination loop of `get_token_accounts` terminates exactly when a
page returns fewer results than the requested limit.  First part: whenever the
loop terminates, the page it broke at is the first page from the start with
fewer than `limit` results, every earlier page having returned at least
`limit`.  Second part: if such a page exists, the loop does terminate at it
(given enough fuel), having requested every page up to it. -/
theorem C9_pagination_termination (pages : Nat → List TokenAccountEntry)
    (limit : Nat) :
    (∀ fuel p acc last, getTokenAccountsLoop pages limit fuel p = some (acc, last) →
      (pages last).length < limit ∧ p ≤ last ∧
        ∀ q, p ≤ q → q < last → limit ≤ (pages q).length) ∧
    (∀ p0 p1 fuel, p0 ≤ p1 → (pages p1).length < limit →
      (∀ q, p0 ≤ q → q < p1 → limit ≤ (pages q).length) →
      p1 - p0 < fuel →
      ∃ acc, getTokenAccountsLoop pages limit fuel p0 = some (acc, p1)) := by
  constructor
  · intro fuel
    induction fuel with
    | zero =>
      intro p acc last h
      cases h
    | succ n ih =>
      intro p acc last h
      rw [getTokenAccountsLoop] at h
      by_cases hlt : (pages p).length < limit
      · rw [if_pos hlt] at h
        simp only [Option.some.injEq, Prod.mk.injEq] at h
        obtain ⟨-, rfl⟩ := h
        exact ⟨hlt, le_rfl, fun q hq1 hq2 => absurd (lt_of_le_of_lt hq1 hq2) (lt_irrefl p)⟩
      · rw [if_neg hlt] at h
        cases hrec : getTokenAccountsLoop pages limit n (p + 1) with
        | none =>
          rw [hrec] at h
          cases h
        | some pr =>
          obtain ⟨rest, last2⟩ := pr
          rw [hrec] at h
          simp only [Option.some.injEq, Prod.mk.injEq] at h
          obtain ⟨-, rfl⟩ := h
          obtain ⟨h1, h2, h3⟩ := ih (p + 1) rest last2 hrec
          refine ⟨h1, by omega, ?_⟩
          intro q hq1 hq2
          rcases Nat.eq_or_lt_of_le hq1 with rfl | hq
          · exact Nat.le_of_not_lt hlt
          · exact h3 q hq hq2
  · intro p0 p1 fuel
    induction fuel generalizing p0 with
    | zero =>
      intro _ _ _ hfuel
      omega
    | succ n ih =>
      intro hle hp1 hbig hfuel
      rw [getTokenAccountsLoop]
      by_cases heq : p0 = p1
      · subst heq
        rw [if_pos hp1]
        exact ⟨pages p0, rfl⟩
      · have hlt0 : p0 < p1 := lt_of_le_of_ne hle heq
        have hge : ¬ (pages p0).length < limit :=
          Nat.not_lt.mpr (hbig p0 le_rfl hlt0)
        rw [if_neg hge]
        obtain ⟨acc, hacc⟩ :=
          ih (p0 + 1) (by omega) hp1 (fun q hq1 hq2 => hbig q (by omega) hq2) (by omega)
        rw [hacc]
        exact ⟨pages p0 ++ acc, rfl⟩

/-- C9 witness: with limit 2, page 0 full (2 entries) and page 1 short
(1 entry), the loop terminates at page 1; conversely its termination there
certifies page 1 short and page 0 full. -/
theorem C9_pagination_termination_w :
    (∃ acc, getTokenAccountsLoop
        (fun p => if p = 0 then [⟨"a", "o", 1⟩, ⟨"b", "o", 2⟩] else
          if p = 1 then [⟨"c", "o", 3⟩] else []) 2 2 0 = some (acc, 1)) :=
  (C9_pagination_termination
      (fun p => if p = 0 then [⟨"a", "o", 1⟩, ⟨"b", "o", 2⟩] else
        if p = 1 then [⟨"c", "o", 3⟩] else []) 2).2 0 1 2
    (by decide) (by decide) (fun q hq1 hq2 => by interval_cases q; decide)
    (by decide)

/-- Helper for C10: every entry of a computed plan arises from a holder with a
positive raw balance through the reward formula. -/
theorem computeDistribution_mem (R S : Nat) :
    ∀ (accounts : List (Pubkey × Nat)) (plan : List (Pubkey × Nat)),
      computeDistribution accounts R S = some plan →
      ∀ o r, (o, r) ∈ plan → ∃ b, (o, b) ∈ accounts ∧ 0 < b ∧
        r = b * R / S % U64_MOD ∧ 0 < r := by
  intro accounts
  induction accounts with
  | nil =>
    intro plan hplan o r hmem
    cases hplan
    cases hmem
  | cons hd tl ih =>
    intro plan hplan o r hmem
    obtain ⟨owner, balance⟩ := hd
    rw [computeDistribution] at hplan
    by_cases hb : 0 < balance
    · rw [if_pos hb] at hplan
      by_cases hs : S = 0
      · rw [if_pos hs] at hplan
        cases hplan
      · rw [if_neg hs] at hplan
        cases htl : computeDistribution tl R S with
        | none =>
          rw [htl] at hplan
          cases hplan
        | some tail =>
          rw [htl] at hplan
          injection hplan with hplan
          subst hplan
          by_cases hrew : 0 < balance * R / S % U64_MOD
          · rw [if_pos hrew] at hmem
            rcases List.mem_cons.mp hmem with h | h
            · rw [Prod.mk.injEq] at h
              refine ⟨balance, ?_, hb, h.2, ?_⟩
              · rw [h.1]
                exact List.mem_cons_self _ _
              · rw [h.2]
                exact hrew
            · obtain ⟨b, hbmem, hbpos, hr, hrpos⟩ := ih tail htl o r h
              exact ⟨b, List.mem_cons_of_mem _ hbmem, hbpos, hr, hrpos⟩
          · rw [if_neg hrew] at hmem
            obtain ⟨b, hbmem, hbpos, hr, hrpos⟩ := ih tail htl o r hmem
            exact ⟨b, List.mem_cons_of_mem _ hbmem, hbpos, hr, hrpos⟩
    · rw [if_neg hb] at hplan
      obtain ⟨b, hbmem, hbpos, hr, hrpos⟩ := ih plan hplan o r hmem
      exact ⟨b, List.mem_cons_of_mem _ hbmem, hbpos, hr, hrpos⟩

/-- Helper for C10: every transfer submitted by a cycle is an entry of the
plan computed by `distribute_rewards` from the holder snapshot. -/
theorem transferCall_mem_processJob (env : Env) (o : Pubkey) (r : Nat)
    (hmem : Action.transferCall o r ∈ (processJob env).1) :
    ∃ plan, computeDistribution env.holders (rewardBalance env) (totalSupplyUi env) =
      some plan ∧ (o, r) ∈ plan := by
  unfold processJob at hmem
  cases hH : env.harvestOk <;> rw [hH] at hmem
  · simp at hmem
  cases hW : env.withdrawOk <;> rw [hW] at hmem
  · simp at hmem
  by_cases h0 : harvestedAmount env = 0
  · simp [h0] at hmem
  cases hP : env.poolFound <;> rw [hP] at hmem
  · simp [h0] at hmem
  cases hM : env.metadataOk <;> rw [hM] at hmem
  · simp [h0] at hmem
  cases hS : env.swapOk <;> rw [hS] at hmem
  · simp [h0] at hmem
  · simp only [Bool.not_true, if_neg h0, Bool.false_eq_true, if_false] at hmem
    cases hcd :
        computeDistribution env.holders (rewardBalance env) (totalSupplyUi env) <;>
      rw [hcd] at hmem <;> dsimp only at hmem
    · simp at hmem
    · rename_i plan
      cases hpr : propagateResults (taskResults env plan) <;> rw [hpr] at hmem <;>
        dsimp only at hmem <;>
        · rw [List.mem_append] at hmem
          rcases hmem with hmem | hmem
          · simp at hmem
          · refine ⟨plan, rfl, ?_⟩
            rw [distributeActions, List.mem_map] at hmem
            obtain ⟨pr, hprm, heq⟩ := hmem
            obtain ⟨a, b⟩ := pr
            injection heq with h1 h2
            rw [← h1, ← h2]
            exact hprm

/-- C10: the cycle derives both `harvested_amount` and `reward_balance` by
truncating the decimal-adjusted ui amount of the sampled balances; any admin
balance strictly below one whole token therefore reads as zero and the cycle
short-circuits with no swap and no transfer; and every transfer the cycle
dispatches pays `floor(b * reward_balance / total_supply_ui)` computed from
the holder's raw base-unit balance `b` against the ui-truncated supply. -/
theorem C10_ui_truncation (env : Env)
    (hH : env.harvestOk = true) (hW : env.withdrawOk = true) :
    harvestedAmount env = env.adminBalanceRaw / 10 ^ env.decimals ∧
      rewardBalance env = env.rewardBalanceRaw / 10 ^ env.rewardDecimals ∧
      (env.adminBalanceRaw < 10 ^ env.decimals →
        (processJob env).2 = .ok ∧
          ∀ a ∈ (processJob env).1, a.isSwap = false ∧ a.isTransfer = false) ∧
      ∀ o r, Action.transferCall o r ∈ (processJob env).1 →
        ∃ b, (o, b) ∈ env.holders ∧ 0 < b ∧
          r = b * rewardBalance env / totalSupplyUi env % U64_MOD := by
  refine ⟨rfl, rfl, ?_, ?_⟩
  · intro hlt
    have h0 : harvestedAmount env = 0 := Nat.div_eq_of_lt hlt
    rw [processJob_zero_harvest env hH hW h0]
    exact ⟨rfl, by decide⟩
  · intro o r hmem
    obtain ⟨plan, hplan, hpr⟩ := transferCall_mem_processJob env o r hmem
    obtain ⟨b, hbmem, hbpos, hr, -⟩ :=
      computeDistribution_mem (rewardBalance env) (totalSupplyUi env) env.holders plan
        hplan o r hpr
    exact ⟨b, hbmem, hbpos, hr⟩

/-- Environment for the C10 witness: just under one whole token in the admin
account. -/
def envC10 : Env where
  decimals := 9
  rewardDecimals := 9
  adminBalancePreRaw := 0
  adminBalanceRaw := 999999999
  harvestOk := true
  withdrawOk := true
  poolFound := true
  metadataOk := true
  reserveIn := 1000
  reserveOut := 1000
  swapOk := true
  rewardBalanceRaw := 0
  supplyRaw := 1000000000
  holders := [(9, 999999999)]
  transferOk := fun _ => true

/-- C10 witness: with 999999999 base units (one token has 10^9) the sampled
harvested amount truncates to zero and the cycle short-circuits. -/
theorem C10_ui_truncation_w :
    (processJob envC10).2 = .ok ∧
      ∀ a ∈ (processJob envC10).1, a.isSwap = false ∧ a.isTransfer = false :=
  (C10_ui_truncation envC10 rfl rfl).2.2.1 (by decide)

end TaxSpl
